import Mathlib

/-!
Verification of the ultiserve content-dispatch and rendering pipeline
(src/main.rs). The Rust handler `on_get` and its helpers are embedded as
pure Lean functions; the external collaborators (filesystem, tera template
engine, syntect highlighter, comrak parser/formatter) are modelled as
function-valued fields of an `Env` record, since the spec treats them as
pure interfaces.
-/

namespace Ultiserve

/-- Encodes a Unicode scalar value as its UTF-8 byte sequence. -/
def utf8EncodeChar (n : Nat) : List Nat :=
  if n < 0x80 then [n]
  else if n < 0x800 then [0xC0 + n / 64, 0x80 + n % 64]
  else if n < 0x10000 then [0xE0 + n / 4096, 0x80 + n / 64 % 64, 0x80 + n % 64]
  else [0xF0 + n / 262144, 0x80 + n / 4096 % 64, 0x80 + n / 64 % 64, 0x80 + n % 64]

/-- The UTF-8 bytes of a string: the byte representation Rust `String`/`Vec<u8>`
values carry (used for comrak's `info`/`literal` fields and `String::into`). -/
def strBytes (s : String) : List Nat :=
  (s.data.map fun c => utf8EncodeChar c.toNat).flatten

/-- Byte-wise UTF-8 validation and decoding, mirroring Rust `String::from_utf8`:
rejects stray continuation bytes, overlong encodings, surrogates and
code points above 0x10FFFF. -/
def utf8DecodeAux : List Nat → List Char → Option (List Char)
  | [], acc => some acc.reverse
  | b :: rest, acc =>
    if b < 0x80 then utf8DecodeAux rest (Char.ofNat b :: acc)
    else if b < 0xC2 then none
    else if b ≤ 0xDF then
      match rest with
      | c1 :: rest2 =>
        if 0x80 ≤ c1 ∧ c1 ≤ 0xBF then
          utf8DecodeAux rest2 (Char.ofNat ((b - 0xC0) * 64 + (c1 - 0x80)) :: acc)
        else none
      | [] => none
    else if b ≤ 0xEF then
      match rest with
      | c1 :: c2 :: rest2 =>
        if (if b = 0xE0 then 0xA0 else 0x80) ≤ c1 ∧ c1 ≤ (if b = 0xED then 0x9F else 0xBF) ∧
            0x80 ≤ c2 ∧ c2 ≤ 0xBF then
          utf8DecodeAux rest2
            (Char.ofNat ((b - 0xE0) * 4096 + (c1 - 0x80) * 64 + (c2 - 0x80)) :: acc)
        else none
      | _ => none
    else if b ≤ 0xF4 then
      match rest with
      | c1 :: c2 :: c3 :: rest2 =>
        if (if b = 0xF0 then 0x90 else 0x80) ≤ c1 ∧ c1 ≤ (if b = 0xF4 then 0x8F else 0xBF) ∧
            0x80 ≤ c2 ∧ c2 ≤ 0xBF ∧ 0x80 ≤ c3 ∧ c3 ≤ 0xBF then
          utf8DecodeAux rest2
            (Char.ofNat
              ((b - 0xF0) * 262144 + (c1 - 0x80) * 4096 + (c2 - 0x80) * 64 + (c3 - 0x80)) :: acc)
        else none
      | _ => none
    else none

/-- `String::from_utf8`: `some` of the decoded string on valid input, `none` otherwise. -/
def utf8Decode (l : List Nat) : Option String :=
  (utf8DecodeAux l []).map fun cs => ⟨cs⟩

/-- Rust `str::trim_start_matches('/')`: removes every leading slash. -/
def trimLeadingSlashes (s : String) : String :=
  ⟨s.data.dropWhile fun c => c = '/'⟩

/-- Rust `str::trim_end_matches("/")`: removes every trailing slash. -/
def trimTrailingSlashes (s : String) : String :=
  ⟨(s.data.reverse.dropWhile fun c => c = '/').reverse⟩

/-- Splits a character list at `/` separators, keeping empty pieces
(the pieces `str::split('/')` yields). -/
def splitSlash : List Char → List Char → List String
  | [], acc => [⟨acc.reverse⟩]
  | c :: cs, acc =>
    if c = '/' then ⟨acc.reverse⟩ :: splitSlash cs []
    else splitSlash cs (c :: acc)

/-- The normal components of the URL path after the leading-slash trim on
src/main.rs line 147: split on `/`, dropping empty and `.` components the way
Rust `Path::components` does.  `..` components are kept. -/
def urlComponents (url : String) : List String :=
  (splitSlash (trimLeadingSlashes url).data []).filter fun s => s != "" && s != "."

/-- The path the dispatcher hands to the filesystem (src/main.rs lines 145-147):
the configured root with the trimmed URL path pushed onto it. -/
def joinedPath (root : List String) (url : String) : List String :=
  root ++ urlComponents url

/-- POSIX resolution of `..` components against an absolute base:
`..` pops the last segment (and is a no-op at the filesystem root). -/
def normSegs (segs : List String) : List String :=
  segs.foldl (fun acc s => if s = ".." then acc.dropLast else acc ++ [s]) []

/-- The filesystem path a request actually resolves to once the OS interprets
any `..` components of the joined path. -/
def resolvedPath (root : List String) (url : String) : List String :=
  normSegs (joinedPath root url)

/-- `p` is the root directory itself or a path strictly beneath it. -/
def isBeneath (root p : List String) : Prop :=
  p.take root.length = root

/-- Rust `Path::extension` restricted to a single file name: the portion after
the last `.`, and `none` when there is no `.` or the only `.` is the leading
one (dotfiles such as `.bashrc`). -/
def rustExtension (name : String) : Option String :=
  let rev := name.data.reverse
  let extRev := rev.takeWhile fun c => c ≠ '.'
  match rev.drop extRev.length with
  | [] => none
  | _ :: stem => if stem.isEmpty then none else some ⟨extRev.reverse⟩

/-- Rust `Path::file_name` on a component list: the last component, unless the
path is empty or ends in `..`. -/
def pathFileName (path : List String) : Option String :=
  match path.getLast? with
  | some s => if s = ".." then none else some s
  | none => none

/-- Rust `Path::extension` on a component list (src/main.rs line 232). -/
def pathExtension (path : List String) : Option String :=
  (pathFileName path).bind rustExtension

/-! ## Markdown document tree (comrak AST) -/

/-- The comrak AST node value, restricted to the kinds `render_markdown_to_reply`
distinguishes: fenced/unfenced code blocks (with raw `info` and `literal` byte
vectors), HTML blocks, and an opaque tag for every other kind. -/
inductive NodeValue where
  | codeBlock (fenced : Bool) (info : List Nat) (literal : List Nat)
  | htmlBlock (literal : List Nat)
  | other (kind : Nat)
deriving DecidableEq

/-- A comrak AST node: a value plus the list of children owned by the tree. -/
inductive MdNode where
  | mk (value : NodeValue) (children : List MdNode)

/-- The value stored at a node. -/
def MdNode.value : MdNode → NodeValue
  | .mk v _ => v

/-- The children of a node. -/
def MdNode.children : MdNode → List MdNode
  | .mk _ cs => cs

/-- The body of the closure passed to `iter_nodes` in `render_markdown_to_reply`
(src/main.rs lines 302-329): the new value of a single node.  A fenced code
block whose `info` and `literal` decode as UTF-8 and whose info token the
highlighter `hl` resolves is replaced by an HTML block carrying the highlighted
HTML's bytes; every other node value is kept. -/
def highlightFence (hl : String → String → Option String) : NodeValue → NodeValue
  | NodeValue.codeBlock true info literal =>
    match utf8Decode info, utf8Decode literal with
    | some i, some l =>
      match hl i l with
      | some html => NodeValue.htmlBlock (strBytes html)
      | none => NodeValue.codeBlock true info literal
    | _, _ => NodeValue.codeBlock true info literal
  | v => v

mutual

/-- `iter_nodes` (src/main.rs lines 292-300) applied to the highlighting
closure: pre-order traversal rewriting each node's value in place. -/
def markdownTransform (hl : String → String → Option String) : MdNode → MdNode
  | MdNode.mk v cs => MdNode.mk (highlightFence hl v) (markdownTransformList hl cs)

/-- The traversal over a node's child list. -/
def markdownTransformList (hl : String → String → Option String) :
    List MdNode → List MdNode
  | [] => []
  | c :: cs => markdownTransform hl c :: markdownTransformList hl cs

end

/-- The node reached from `t` by following a list of child indices. -/
def getNode? : List Nat → MdNode → Option MdNode
  | [], n => some n
  | i :: p, MdNode.mk _ cs =>
    match cs.get? i with
    | some c => getNode? p c
    | none => none

/-- The pure shape of a tree: positions without values. -/
inductive Shape where
  | node (children : List Shape)

mutual

/-- Shape of a node. -/
def shapeOf : MdNode → Shape
  | MdNode.mk _ cs => Shape.node (shapeList cs)

/-- Shapes of a child list. -/
def shapeList : List MdNode → List Shape
  | [] => []
  | c :: cs => shapeOf c :: shapeList cs

end

/-! ## Server data model and environment -/

/-- Serialized directory entry (`FileEntry`, src/main.rs lines 387-391). -/
structure FileEntry where
  name : String
  is_dir : Bool
deriving DecidableEq

/-- Data handed to the `index.html` template (src/main.rs lines 379-385). -/
structure IndexContent where
  files : List FileEntry
  full_current_dir : String
  current_dir : String
  has_parent : Bool
deriving DecidableEq

/-- Data handed to the `file.html` template (src/main.rs lines 393-399). -/
structure FileContent where
  content : String
  unsafe_content : Bool
  file_name : String
  raw_url : String
deriving DecidableEq

/-- `UltiserveReject` (src/main.rs lines 371-375): the server-error rejections. -/
inductive RejectKind where
  | renderFail
  | markdownFail
deriving DecidableEq

/-- The HTTP outcome of a request: an HTML reply, a plain-text reply
(`raw=true`), a raw byte reply (non-UTF-8 file), the 404 rejection
(`reject::reject()`), or a custom server-error rejection. -/
inductive Reply where
  | html (body : String)
  | text (body : String)
  | bytes (body : List Nat)
  | notFound
  | reject (r : RejectKind)
deriving DecidableEq

/-- Process environment: the configured root (`Opt::dir` as a component list)
together with the external collaborators modelled as pure functions — the
filesystem (`read_dir` yielding child names, `is_dir`, `read`, `canonicalize`),
the two tera templates, syntect (`find_syntax_by_token` as a membership test
plus `highlighted_html_for_string`), and comrak (`parse_document` and
`format_html`, the latter returning the HTML bytes or failing). -/
structure Env where
  root : List String
  readDir : List String → Option (List String)
  isDir : List String → Bool
  readFile : List String → Option (List Nat)
  canon : List String → Option String
  teraIndex : IndexContent → Option String
  teraFile : FileContent → Option String
  findSyntax : String → Bool
  highlightHtml : String → String → String
  parseMd : String → MdNode
  formatHtml : MdNode → Option (List Nat)

/-- `syntax_highlight_html` (src/main.rs lines 257-262): `some` of the
highlighted HTML when a grammar matches the token, else `none`. -/
def syntax_highlight_html (env : Env) (file_ext content : String) : Option String :=
  if env.findSyntax file_ext then some (env.highlightHtml file_ext content) else none

/-- `create_file_reply` (src/main.rs lines 340-359): renders the `file.html`
template over a `FileContent`; a template failure is the `RenderFail`
rejection. -/
def create_file_reply (env : Env) (path : List String) (content : String)
    (unsafe_content : Bool) (url : String) : Reply :=
  match env.teraFile
      ⟨content, unsafe_content, (env.canon path).getD "<unknown>", url ++ "?raw=true"⟩ with
  | some rendered => Reply.html rendered
  | none => Reply.reject RejectKind.renderFail

/-- `render_markdown_to_reply` (src/main.rs lines 265-337): parse, transform
fenced code blocks via the highlighter, serialize; serialization or UTF-8
failure is the `MarkdownFail` rejection, success goes through the file page
marked unsafe. -/
def render_markdown_to_reply (env : Env) (path : List String)
    (content url : String) : Reply :=
  let document := markdownTransform (syntax_highlight_html env) (env.parseMd content)
  match env.formatHtml document with
  | none => Reply.reject RejectKind.markdownFail
  | some bs =>
    match utf8Decode bs with
    | none => Reply.reject RejectKind.markdownFail
    | some html => create_file_reply env path html true url

/-- `render_file_to_reply` (src/main.rs lines 226-253): branch on the path's
extension — `html`/`html5` are sent back directly, `md`/`markdown` go through
the Markdown renderer, anything else is syntax-highlighted when a grammar
matches the extension (then marked unsafe) or embedded as escaped plain text. -/
def render_file_to_reply (env : Env) (path : List String) (content : String)
    (url : String) : Reply :=
  match pathExtension path with
  | some "html" => Reply.html content
  | some "html5" => Reply.html content
  | some "md" => render_markdown_to_reply env path content url
  | some "markdown" => render_markdown_to_reply env path content url
  | ext =>
    match ext.bind fun e => syntax_highlight_html env e content with
    | some highlighted => create_file_reply env path highlighted true url
    | none => create_file_reply env path content false url

/-- Byte-list lexicographic order: the order Rust `String::cmp` uses. -/
def nameLeBytes : List Nat → List Nat → Bool
  | [], _ => true
  | _ :: _, [] => false
  | a :: as, b :: bs => if a < b then true else if b < a then false else nameLeBytes as bs

/-- The comparator of the `sort_by` call on src/main.rs line 172:
byte-order comparison of entry names. -/
def entryLe (a b : FileEntry) : Bool :=
  nameLeBytes (strBytes a.name) (strBytes b.name)

/-- The entry built for one directory child (src/main.rs lines 155-168):
directories get a trailing `/` on the display name and `is_dir = true`. -/
def dirEntries (env : Env) (path : List String) (names : List String) : List FileEntry :=
  names.map fun n => if env.isDir (path ++ [n]) then ⟨n ++ "/", true⟩ else ⟨n, false⟩

/-- The listing after the stable sort on src/main.rs line 172. -/
def dirListing (env : Env) (path : List String) (names : List String) : List FileEntry :=
  (dirEntries env path names).mergeSort entryLe

/-- The `IndexContent` built for a directory request (src/main.rs lines 174-184). -/
def indexContentOf (env : Env) (full_path : String) (path : List String)
    (names : List String) : IndexContent :=
  ⟨dirListing env path names,
   (env.canon path).getD "<unknown>",
   trimTrailingSlashes full_path,
   full_path != "/"⟩

/-- `on_get` (src/main.rs lines 138-223): resolve the path beneath the root,
serve a directory listing if `read_dir` succeeds, otherwise read the file —
valid UTF-8 content is returned verbatim under `raw=true` or rendered,
non-UTF-8 content is returned as raw bytes, and a failed read is a 404. -/
def on_get (env : Env) (full_path : String) (raw : Bool) : Reply :=
  let path := joinedPath env.root full_path
  match env.readDir path with
  | some names =>
    match env.teraIndex (indexContentOf env full_path path names) with
    | some rendered => Reply.html rendered
    | none => Reply.reject RejectKind.renderFail
  | none =>
    match env.readFile path with
    | some bs =>
      match utf8Decode bs with
      | some file_content =>
        if raw then Reply.text file_content
        else render_file_to_reply env path file_content (trimTrailingSlashes full_path)
      | none => Reply.bytes bs
    | none => Reply.notFound

/-! ## Concrete instances used by witnesses and counterexamples -/

/-- Example highlighter knowing only the token `rs`. -/
def hl0 : String → String → Option String :=
  fun i l => if i = "rs" then some ("H:" ++ l) else none

/-- An eligible fenced `rs` code block. -/
def n0 : MdNode :=
  MdNode.mk (NodeValue.codeBlock true (strBytes "rs") (strBytes "fn f()")) []

/-- A document holding `n0` inside a container node. -/
def t0 : MdNode :=
  MdNode.mk (NodeValue.other 0) [n0]

/-- The transform of `n0` under `hl0`. -/
def n1 : MdNode :=
  markdownTransform hl0 n0

/-- A base environment: every filesystem lookup fails, no grammar matches, and
the file template wraps its content with a visible `PAGE:` marker. -/
def envBase : Env :=
  ⟨["r"],
   fun _ => none,
   fun _ => false,
   fun _ => none,
   fun _ => none,
   fun _ => none,
   fun fc => some ("PAGE:" ++ fc.content),
   fun _ => false,
   fun _ _ => "",
   fun _ => MdNode.mk (NodeValue.other 0) [],
   fun _ => some []⟩

/-- Environment whose root is an empty readable directory; the index template
reveals the `has_parent` flag. -/
def envDir : Env :=
  { envBase with
    readDir := fun p => if p = ["r"] then some [] else none,
    teraIndex := fun ic => some (if ic.has_parent then "P" else "NP") }

/-- Environment with a single readable UTF-8 file `f.html`. -/
def envHtmlFile : Env :=
  { envBase with
    readFile := fun p => if p = ["r", "f.html"] then some (strBytes "<b>hi</b>") else none }

/-- Environment with a single readable non-UTF-8 file `x`. -/
def envBinFile : Env :=
  { envBase with
    readFile := fun p => if p = ["r", "x"] then some [255, 0] else none }

/-! ## Helper lemmas -/

theorem markdownTransformList_get? (hl : String → String → Option String)
    (cs : List MdNode) (i : Nat) :
    (markdownTransformList hl cs).get? i = (cs.get? i).map (markdownTransform hl) := by
  induction cs generalizing i with
  | nil => simp [markdownTransformList]
  | cons c cs ih =>
    cases i with
    | zero => rfl
    | succ j => simp only [markdownTransformList, List.get?_cons_succ, ih]

theorem getNode?_markdownTransform (hl : String → String → Option String)
    (p : List Nat) :
    ∀ t, getNode? p (markdownTransform hl t) = (getNode? p t).map (markdownTransform hl) := by
  induction p with
  | nil => intro t; simp [getNode?]
  | cons i p ih =>
    intro t
    cases t with
    | mk v cs =>
      simp only [markdownTransform, getNode?, markdownTransformList_get?]
      cases h : cs.get? i with
      | none => simp
      | some c => simp [ih c]

mutual

theorem shapeOf_markdownTransform (hl : String → String → Option String) :
    ∀ t : MdNode, shapeOf (markdownTransform hl t) = shapeOf t
  | MdNode.mk _ cs => by
    simp only [markdownTransform, shapeOf]
    rw [shapeList_markdownTransformList hl cs]

theorem shapeList_markdownTransformList (hl : String → String → Option String) :
    ∀ cs : List MdNode, shapeList (markdownTransformList hl cs) = shapeList cs
  | [] => rfl
  | c :: cs => by
    simp only [markdownTransformList, shapeList]
    rw [shapeOf_markdownTransform hl c, shapeList_markdownTransformList hl cs]

end

theorem highlightFence_eq_or_htmlBlock (hl : String → String → Option String)
    (v : NodeValue) :
    highlightFence hl v = v ∨
    ∃ info literal html, v = NodeValue.codeBlock true info literal ∧
      highlightFence hl v = NodeValue.htmlBlock html := by
  cases v with
  | codeBlock fenced info literal =>
    cases fenced with
    | false => left; rfl
    | true =>
      cases h1 : utf8Decode info with
      | none => left; simp [highlightFence, h1]
      | some i =>
        cases h2 : utf8Decode literal with
        | none => left; simp [highlightFence, h1, h2]
        | some l =>
          cases h3 : hl i l with
          | none => left; simp [highlightFence, h1, h2, h3]
          | some html =>
            right
            exact ⟨info, literal, strBytes html, rfl, by simp [highlightFence, h1, h2, h3]⟩
  | htmlBlock literal => left; rfl
  | other kind => left; rfl

theorem normSegs_aux_no_dotdot (l : List String) (acc : List String) (h : ".." ∉ l) :
    List.foldl (fun a s => if s = ".." then a.dropLast else a ++ [s]) acc l = acc ++ l := by
  induction l generalizing acc with
  | nil => simp
  | cons s l ih =>
    have hs : ¬ s = ".." := fun e => h (by simp [e])
    have hl : ".." ∉ l := fun m => h (List.mem_cons_of_mem _ m)
    simp [List.foldl_cons, if_neg hs, ih _ hl]

theorem resolvedPath_no_dotdot (root : List String) (url : String)
    (hr : ".." ∉ root) (hu : ".." ∉ urlComponents url) :
    resolvedPath root url = root ++ urlComponents url := by
  unfold resolvedPath normSegs joinedPath
  rw [List.foldl_append, normSegs_aux_no_dotdot root [] hr,
    normSegs_aux_no_dotdot (urlComponents url) _ hu, List.nil_append]

theorem nameLeBytes_total (a : List Nat) :
    ∀ b, (nameLeBytes a b || nameLeBytes b a) = true := by
  induction a with
  | nil => intro b; simp [nameLeBytes]
  | cons x as ih =>
    intro b
    cases b with
    | nil => simp [nameLeBytes]
    | cons y bs =>
      by_cases h1 : x < y
      · simp [nameLeBytes, h1]
      · by_cases h2 : y < x
        · simp [nameLeBytes, h1, h2]
        · simp [nameLeBytes, h1, h2, ih bs]

theorem nameLeBytes_trans :
    ∀ (a b c : List Nat), nameLeBytes a b = true → nameLeBytes b c = true →
      nameLeBytes a c = true
  | [], _, _, _, _ => by simp [nameLeBytes]
  | _ :: _, [], _, hab, _ => by simp [nameLeBytes] at hab
  | _ :: _, _ :: _, [], _, hbc => by simp [nameLeBytes] at hbc
  | x :: as, y :: bs, z :: cs, hab, hbc => by
    simp only [nameLeBytes] at hab hbc ⊢
    by_cases hxy : x < y
    · by_cases hyz : y < z
      · simp [show x < z by omega]
      · by_cases hzy : z < y
        · simp [hyz, hzy] at hbc
        · simp [show x < z by omega]
    · by_cases hyx : y < x
      · simp [hxy, hyx] at hab
      · by_cases hyz : y < z
        · simp [show x < z by omega]
        · by_cases hzy : z < y
          · simp [hyz, hzy] at hbc
          · have hxz : ¬ x < z := by omega
            have hzx : ¬ z < x := by omega
            rw [if_neg hxy, if_neg hyx] at hab
            rw [if_neg hyz, if_neg hzy] at hbc
            rw [if_neg hxz, if_neg hzx]
            exact nameLeBytes_trans as bs cs hab hbc

theorem entryLe_total (a b : FileEntry) : (entryLe a b || entryLe b a) = true :=
  nameLeBytes_total _ _

theorem entryLe_trans (a b c : FileEntry) :
    entryLe a b = true → entryLe b c = true → entryLe a c = true :=
  nameLeBytes_trans _ _ _

theorem render_file_html_direct (env : Env) (path : List String)
    (content url : String)
    (he : pathExtension path = some "html" ∨ pathExtension path = some "html5") :
    render_file_to_reply env path content url = Reply.html content := by
  unfold render_file_to_reply
  rcases he with h | h <;> rw [h] <;> rfl

theorem highlightFence_spec (hl : String → String → Option String) (v : NodeValue) :
    (∃ info literal i l html,
        v = NodeValue.codeBlock true info literal ∧
        utf8Decode info = some i ∧ utf8Decode literal = some l ∧ hl i l = some html ∧
        highlightFence hl v = NodeValue.htmlBlock (strBytes html)) ∨
    ((¬ ∃ info literal i l html,
        v = NodeValue.codeBlock true info literal ∧
        utf8Decode info = some i ∧ utf8Decode literal = some l ∧ hl i l = some html) ∧
      highlightFence hl v = v) := by
  cases v with
  | htmlBlock literal =>
    right
    refine ⟨?_, rfl⟩
    rintro ⟨info, literal', i, l, html, hv, -, -, -⟩
    exact NodeValue.noConfusion hv
  | other kind =>
    right
    refine ⟨?_, rfl⟩
    rintro ⟨info, literal', i, l, html, hv, -, -, -⟩
    exact NodeValue.noConfusion hv
  | codeBlock fenced info literal =>
    cases fenced with
    | false =>
      right
      refine ⟨?_, rfl⟩
      rintro ⟨info', literal', i, l, html, hv, -, -, -⟩
      simp at hv
    | true =>
      cases h1 : utf8Decode info with
      | none =>
        right
        refine ⟨?_, by simp [highlightFence, h1]⟩
        rintro ⟨info', literal', i, l, html, hv, hi, -, -⟩
        simp only [NodeValue.codeBlock.injEq] at hv
        obtain ⟨-, rfl, rfl⟩ := hv
        rw [h1] at hi
        cases hi
      | some i0 =>
        cases h2 : utf8Decode literal with
        | none =>
          right
          refine ⟨?_, by simp [highlightFence, h1, h2]⟩
          rintro ⟨info', literal', i, l, html, hv, -, hlit, -⟩
          simp only [NodeValue.codeBlock.injEq] at hv
          obtain ⟨-, rfl, rfl⟩ := hv
          rw [h2] at hlit
          cases hlit
        | some l0 =>
          cases h3 : hl i0 l0 with
          | none =>
            right
            refine ⟨?_, by simp [highlightFence, h1, h2, h3]⟩
            rintro ⟨info', literal', i, l, html, hv, hi, hlit, hh⟩
            simp only [NodeValue.codeBlock.injEq] at hv
            obtain ⟨-, rfl, rfl⟩ := hv
            rw [h1, Option.some.injEq] at hi
            rw [h2, Option.some.injEq] at hlit
            subst hi
            subst hlit
            rw [h3] at hh
            cases hh
          | some html0 =>
            left
            exact ⟨info, literal, i0, l0, html0, rfl, h1, h2, h3,
              by simp [highlightFence, h1, h2, h3]⟩

/-! ## Claim theorems -/

/-- C1, counterexample: with root `srv`, the request URL `/../etc/passwd`
resolves to `etc/passwd`, which is not at or beneath the root — the dispatcher
performs no clamping of `..` segments. -/
theorem dotdot_escapes_root_cex :
    ¬ isBeneath ["srv"] (resolvedPath ["srv"] "/../etc/passwd") := by
  unfold isBeneath
  decide

/-- C1, amended: for request URLs containing no `..` segment, the resolved
filesystem path (root joined with the URL path after trimming leading
separators) stays at or beneath the configured root; URLs containing `..`
segments can resolve outside it. -/
theorem no_dotdot_stays_beneath_root (root : List String) (url : String)
    (hr : ".." ∉ root) (hu : ".." ∉ urlComponents url) :
    isBeneath root (resolvedPath root url) := by
  unfold isBeneath
  rw [resolvedPath_no_dotdot root url hr hu]
  exact List.take_left root (urlComponents url)

/-- Witness for the amended C1 at root `srv` and URL `/docs/readme.md`. -/
theorem no_dotdot_stays_beneath_root_witness :
    (".." ∉ (["srv"] : List String)) ∧ (".." ∉ urlComponents "/docs/readme.md") ∧
    isBeneath ["srv"] (resolvedPath ["srv"] "/docs/readme.md") :=
  ⟨by decide, by decide,
   no_dotdot_stays_beneath_root ["srv"] "/docs/readme.md" (by decide) (by decide)⟩

/-- C2, confirmed: at every position of the document tree (however deeply
nested), the transform pass replaces the node's value by an HTML block
carrying the highlighter's output exactly when the node is a fenced code
block whose info-string and literal decode as UTF-8 and the highlighter
returns `some html` for them; in every other case the node's value is left
unmodified. -/
theorem fence_replacement_per_node (hl : String → String → Option String)
    (t : MdNode) (p : List Nat) (n : MdNode)
    (h : getNode? p t = some n) :
    ∃ n2, getNode? p (markdownTransform hl t) = some n2 ∧
      ((∃ info literal i l html,
          n.value = NodeValue.codeBlock true info literal ∧
          utf8Decode info = some i ∧ utf8Decode literal = some l ∧
          hl i l = some html ∧
          n2.value = NodeValue.htmlBlock (strBytes html)) ∨
       ((¬ ∃ info literal i l html,
            n.value = NodeValue.codeBlock true info literal ∧
            utf8Decode info = some i ∧ utf8Decode literal = some l ∧
            hl i l = some html) ∧
        n2.value = n.value)) := by
  refine ⟨markdownTransform hl n, ?_, ?_⟩
  · rw [getNode?_markdownTransform, h]
    rfl
  · have hval : (markdownTransform hl n).value = highlightFence hl n.value := by
      cases n
      rfl
    rcases highlightFence_spec hl n.value with
      ⟨info, literal, i, l, html, hv, hi, hlit, hh, he⟩ | ⟨hne, he⟩
    · exact Or.inl ⟨info, literal, i, l, html, hv, hi, hlit, hh, by rw [hval, he]⟩
    · exact Or.inr ⟨hne, by rw [hval, he]⟩

/-- Witness for C2 at the document `t0` whose position `[0]` holds the
eligible fenced `rs` code block `n0`. -/
theorem fence_replacement_per_node_witness :
    getNode? [0] t0 = some n0 ∧
    ∃ n2, getNode? [0] (markdownTransform hl0 t0) = some n2 ∧
      ((∃ info literal i l html,
          n0.value = NodeValue.codeBlock true info literal ∧
          utf8Decode info = some i ∧ utf8Decode literal = some l ∧
          hl0 i l = some html ∧
          n2.value = NodeValue.htmlBlock (strBytes html)) ∨
       ((¬ ∃ info literal i l html,
            n0.value = NodeValue.codeBlock true info literal ∧
            utf8Decode info = some i ∧ utf8Decode literal = some l ∧
            hl0 i l = some html) ∧
        n2.value = n0.value)) :=
  ⟨rfl, fence_replacement_per_node hl0 t0 [0] n0 rfl⟩

/-- C3, confirmed: the transform pass preserves the exact shape of the parsed
tree — no sibling is dropped, inserted or reordered — and at every position the
value either is unchanged or was a fenced code block replaced by an HTML
block. -/
theorem transform_preserves_tree_shape (hl : String → String → Option String)
    (t : MdNode) :
    shapeOf (markdownTransform hl t) = shapeOf t ∧
    ∀ p n n2, getNode? p t = some n → getNode? p (markdownTransform hl t) = some n2 →
      n2.value = n.value ∨
      ∃ info literal html, n.value = NodeValue.codeBlock true info literal ∧
        n2.value = NodeValue.htmlBlock html := by
  refine ⟨shapeOf_markdownTransform hl t, ?_⟩
  intro p n n2 h1 h2
  rw [getNode?_markdownTransform, h1] at h2
  simp only [Option.map_some'] at h2
  obtain rfl := Option.some.inj h2
  have hval : (markdownTransform hl n).value = highlightFence hl n.value := by
    cases n
    rfl
  rcases highlightFence_eq_or_htmlBlock hl n.value with heq | ⟨info, literal, html, hv, he⟩
  · left
    rw [hval, heq]
  · right
    exact ⟨info, literal, html, hv, by rw [hval, he]⟩

/-- Witness for C3 at `t0`, evaluating the shape equation and the position
`[0]` holding `n0` whose transform is `n1`. -/
theorem transform_preserves_tree_shape_witness :
    shapeOf (markdownTransform hl0 t0) = shapeOf t0 ∧
    (n1.value = n0.value ∨
      ∃ info literal html, n0.value = NodeValue.codeBlock true info literal ∧
        n1.value = NodeValue.htmlBlock html) :=
  ⟨(transform_preserves_tree_shape hl0 t0).1,
   (transform_preserves_tree_shape hl0 t0).2 [0] n0 n1 rfl rfl⟩

/-- C4, counterexample: for an `html` file the handler sends the decoded
content directly (`reply::html(content)`, src/main.rs line 235) and never
renders the `file.html` page, even though the page template is available and
would produce a different body. -/
theorem html_not_in_file_page_cex :
    render_file_to_reply envBase ["r", "f.html"] "hello" "/f.html" = Reply.html "hello" ∧
    envBase.teraFile ⟨"hello", true, "<unknown>", "/f.html?raw=true"⟩ = some "PAGE:hello" ∧
    Reply.html "hello" ≠ Reply.html "PAGE:hello" :=
  ⟨rfl, rfl, by decide⟩

/-- C4, amended: for every readable UTF-8 file whose path extension is exactly
`html` or `html5` (case-sensitive), the response body is the decoded file
content unmodified, sent directly as an HTML response without the rendered
file page (hence no pre-escaped marking), with no Markdown or highlight
processing applied. -/
theorem html_ext_sent_directly (env : Env) (fp : String) (bs : List Nat)
    (content : String)
    (hd : env.readDir (joinedPath env.root fp) = none)
    (hf : env.readFile (joinedPath env.root fp) = some bs)
    (hu : utf8Decode bs = some content)
    (he : pathExtension (joinedPath env.root fp) = some "html" ∨
          pathExtension (joinedPath env.root fp) = some "html5") :
    on_get env fp false = Reply.html content := by
  simp only [on_get, hd, hf, hu]
  exact render_file_html_direct env _ content _ he

/-- Witness for the amended C4: the file `f.html` of `envHtmlFile` is sent
back byte-for-byte. -/
theorem html_ext_sent_directly_witness :
    envHtmlFile.readDir (joinedPath envHtmlFile.root "/f.html") = none ∧
    envHtmlFile.readFile (joinedPath envHtmlFile.root "/f.html") =
      some (strBytes "<b>hi</b>") ∧
    utf8Decode (strBytes "<b>hi</b>") = some "<b>hi</b>" ∧
    pathExtension (joinedPath envHtmlFile.root "/f.html") = some "html" ∧
    on_get envHtmlFile "/f.html" false = Reply.html "<b>hi</b>" :=
  ⟨rfl, rfl, rfl, rfl,
   html_ext_sent_directly envHtmlFile "/f.html" (strBytes "<b>hi</b>") "<b>hi</b>"
     rfl rfl rfl (Or.inl rfl)⟩

/-- C5, confirmed: for every readable file with valid UTF-8 content, a request
with `raw=true` returns exactly the decoded content as a plain-text reply,
skipping extension branching, highlighting, Markdown and templates. -/
theorem raw_true_returns_verbatim (env : Env) (fp : String) (bs : List Nat)
    (content : String)
    (hd : env.readDir (joinedPath env.root fp) = none)
    (hf : env.readFile (joinedPath env.root fp) = some bs)
    (hu : utf8Decode bs = some content) :
    on_get env fp true = Reply.text content := by
  simp only [on_get, hd, hf, hu]
  rfl

/-- Witness for C5 on the concrete file of `envHtmlFile`. -/
theorem raw_true_returns_verbatim_witness :
    envHtmlFile.readDir (joinedPath envHtmlFile.root "/f.html") = none ∧
    envHtmlFile.readFile (joinedPath envHtmlFile.root "/f.html") =
      some (strBytes "<b>hi</b>") ∧
    utf8Decode (strBytes "<b>hi</b>") = some "<b>hi</b>" ∧
    on_get envHtmlFile "/f.html" true = Reply.text "<b>hi</b>" :=
  ⟨rfl, rfl, rfl,
   raw_true_returns_verbatim envHtmlFile "/f.html" (strBytes "<b>hi</b>") "<b>hi</b>"
     rfl rfl rfl⟩

/-- C6, confirmed: a readable file whose bytes are not valid UTF-8 succeeds
with the raw bytes returned unmodified, for either value of `raw`, never an
error and never through any rendering step. -/
theorem non_utf8_returned_as_bytes (env : Env) (fp : String) (bs : List Nat)
    (raw : Bool)
    (hd : env.readDir (joinedPath env.root fp) = none)
    (hf : env.readFile (joinedPath env.root fp) = some bs)
    (hu : utf8Decode bs = none) :
    on_get env fp raw = Reply.bytes bs := by
  simp only [on_get, hd, hf, hu]

/-- Witness for C6 on the non-UTF-8 file `x` of `envBinFile`. -/
theorem non_utf8_returned_as_bytes_witness :
    envBinFile.readDir (joinedPath envBinFile.root "/x") = none ∧
    envBinFile.readFile (joinedPath envBinFile.root "/x") = some [255, 0] ∧
    utf8Decode [255, 0] = none ∧
    on_get envBinFile "/x" false = Reply.bytes [255, 0] :=
  ⟨rfl, rfl, rfl, non_utf8_returned_as_bytes envBinFile "/x" [255, 0] false rfl rfl rfl⟩

/-- C7, confirmed: when the resolved path is neither a readable directory nor a
readable file — whatever the cause of the I/O failure — the handler produces
the 404 not-found outcome, never a server-error rejection. -/
theorem missing_path_not_found (env : Env) (fp : String) (raw : Bool)
    (hd : env.readDir (joinedPath env.root fp) = none)
    (hf : env.readFile (joinedPath env.root fp) = none) :
    on_get env fp raw = Reply.notFound := by
  simp only [on_get, hd, hf]

/-- Witness for C7: `envBase` has no readable entries at all. -/
theorem missing_path_not_found_witness :
    envBase.readDir (joinedPath envBase.root "/nope") = none ∧
    envBase.readFile (joinedPath envBase.root "/nope") = none ∧
    on_get envBase "/nope" false = Reply.notFound :=
  ⟨rfl, rfl, missing_path_not_found envBase "/nope" false rfl rfl⟩

/-- C8, confirmed: the produced listing is a permutation of exactly the
directory's immediate children — each child mapped to its display entry, where
directories get a trailing `/` and `is_dir = true` — and it is sorted by
byte-order comparison of the entries' names. -/
theorem listing_exact_children_sorted (env : Env) (path : List String)
    (names : List String) :
    (dirListing env path names).Perm
      (names.map fun n =>
        if env.isDir (path ++ [n]) then FileEntry.mk (n ++ "/") true
        else FileEntry.mk n false) ∧
    (dirListing env path names).Pairwise fun a b => entryLe a b = true := by
  constructor
  · exact List.mergeSort_perm (dirEntries env path names) entryLe
  · exact List.sorted_mergeSort entryLe_trans entryLe_total (dirEntries env path names)

/-- C9, counterexample: the request path `//` normalizes to the root (the
leading-slash trim leaves the empty path, and it resolves to the root
directory), yet `has_parent` is computed as `full_path != "/"`, which is true
for `//` — observable through the index template. -/
theorem double_slash_has_parent_cex :
    trimLeadingSlashes "//" = "" ∧
    joinedPath envDir.root "//" = envDir.root ∧
    on_get envDir "//" false = Reply.html "P" ∧
    on_get envDir "/" false = Reply.html "NP" :=
  ⟨rfl, rfl, rfl, rfl⟩

/-- C9, amended: the listing's `has_parent` flag is false if and only if the
raw request path string is exactly `/`; any other request path — including
paths such as `//` that also denote the root — gets `has_parent = true`,
regardless of whether a parent exists above the served root. -/
theorem has_parent_false_iff_slash (env : Env) (fp : String) (path : List String)
    (names : List String) :
    ((indexContentOf env fp path names).has_parent = false) ↔ fp = "/" := by
  simp [indexContentOf]

/-- C10, confirmed: the `raw` query parameter influences only the valid-UTF-8
file branch — for a directory request, and for a file with non-UTF-8 content,
the response is identical under `raw=true` and `raw=false`. -/
theorem raw_affects_only_utf8_files (env : Env) (fp : String)
    (h : (∃ names, env.readDir (joinedPath env.root fp) = some names) ∨
         (env.readDir (joinedPath env.root fp) = none ∧
          ∃ bs, env.readFile (joinedPath env.root fp) = some bs ∧
            utf8Decode bs = none)) :
    on_get env fp true = on_get env fp false := by
  rcases h with ⟨names, hd⟩ | ⟨hd, bs, hf, hu⟩
  · simp only [on_get, hd]
  · simp only [on_get, hd, hf, hu]

/-- Witness for C10 on the directory request `/` of `envDir`. -/
theorem raw_affects_only_utf8_files_witness :
    envDir.readDir (joinedPath envDir.root "/") = some [] ∧
    on_get envDir "/" true = on_get envDir "/" false :=
  ⟨rfl, raw_affects_only_utf8_files envDir "/" (Or.inl ⟨[], rfl⟩)⟩

end Ultiserve
